import Mathlib

/-!
A shallow embedding of `src/erateEstimate/erateEstimate.C` (canu): the
bit-packed overlap record `ESToverlap`, the derived alignment span
`ESToverlapSpan`, the per-read error profile `readErrorEstimate`, the
iterative reestimation engine `recomputeErrorProfile` and the output
filter `outputOverlaps`, together with theorems settling the claims of
the specification.

Modelling conventions:
* machine integers are `Nat`/`Int` with explicit reduction modulo `2^w`
  wherever the C code can wrap;
* C `double` arithmetic is modelled over `ℚ`;
* a C `assert` failure (or an out-of-bounds array access) aborts the
  program; an aborting computation is modelled as an `Option` returning
  `none`;
* heap arrays are Lean lists; `new`-allocated cells start with
  arbitrary (unconstrained) contents, so list cells that the program
  never wrote simply keep whatever value the embedding chose for them.
-/

/-- The value a C `uint32` holds after converting the integer `x`. -/
def wrap32 (x : ℤ) : ℕ := (x % 4294967296).toNat

/-- The value a C `int32` holds for the unsigned quantity `n`
(two's-complement wrap), as in `int32 seqLenA = readProfile[...].seqLen`. -/
def toInt32 (n : ℕ) : ℤ := ((n : ℤ) + 2147483648) % 4294967296 - 2147483648

/-- The value a signed 17-bit bit-field (`int32 a_hang : 17`) stores for `x`. -/
def wrap17 (x : ℤ) : ℤ := (x + 65536) % 131072 - 65536

/-- C `uint32` subtraction `a - b` (wraps modulo `2^32`), as in the
index arithmetic `a_iid - iidMin` and in `errorMeanS[ae] -
errorMeanS[ab]`: both operands of the latter are `uint32` cells, so the
subtraction wraps modulo `2^32` and only its result is widened to the
`uint64` variable. -/
def sub32 (a b : ℕ) : ℕ := wrap32 ((a : ℤ) - (b : ℤ))

/-- Modelled from the spec: `AS_OVS_decodeEvalue` is declared in the
overlap-store headers, which are not part of `src/`.  The spec describes
the codec as a monotone quantization of an error rate in `[0,1]` at
12-bit resolution that round-trips at the stored resolution; we model the
decoder as the linear map `v ↦ v / (2^12 - 1)` over `ℚ`. -/
def AS_OVS_decodeEvalue (v : ℕ) : ℚ := (v : ℚ) / 4095

/-- Modelled from the spec: `AS_OVS_encodeEvalue` (not part of `src/`),
the matching monotone 12-bit quantizer, modelled as rounding
`q * (2^12 - 1)` to the nearest integer. -/
def AS_OVS_encodeEvalue (q : ℚ) : ℕ := (⌊q * 4095 + 1 / 2⌋).toNat

/-- `#define ERATE_TOLERANCE 0.03` (erateEstimate.C line 54). -/
def ERATE_TOLERANCE : ℚ := 3 / 100

/-- The bit-packed in-memory overlap record (`class ESToverlap`):
`a_iid : 23`, `b_iid_hi : 9`, `b_iid_lo : 14`, `a_hang : 17` (signed),
`b_hang : 17` (signed), `erate : 12`, `flipped : 1`, `discarded : 1`.
Each field carries the value the corresponding C bit-field holds. -/
structure ESToverlap where
  a_iid : ℕ
  b_iid_hi : ℕ
  b_iid_lo : ℕ
  a_hang : ℤ
  b_hang : ℤ
  erate : ℕ
  flipped : Bool
  discarded : Bool
deriving DecidableEq, Repr

/-- `ESToverlap::populate(ovOverlap &ovl)`: packs the native overlap
record into the bit-fields.  The C shift/mask forms are translated to
division/remainder: `(b_iid >> 14) & 0x1ff` is `(b_iid / 2^14) % 2^9`,
`b_iid & 0x3fff` is `b_iid % 2^14`; a `k`-bit unsigned bit-field keeps
the value modulo `2^k`, a signed 17-bit bit-field wraps via `wrap17`. -/
def ESToverlap.populate (a_iid b_iid : ℕ) (a_hang b_hang : ℤ) (evalue : ℕ)
    (flipped : Bool) : ESToverlap :=
  { a_iid := a_iid % 8388608
  , b_iid_hi := (b_iid / 16384) % 512
  , b_iid_lo := b_iid % 16384
  , a_hang := wrap17 a_hang
  , b_hang := wrap17 b_hang
  , erate := evalue % 4096
  , flipped := flipped
  , discarded := false }

/-- The decoded second identifier `(b_iid_hi << 14) | b_iid_lo`; since
`b_iid_lo` holds fewer than `2^14`, the bit-or is the plain sum. -/
def ESToverlap.b_iid (o : ESToverlap) : ℕ := o.b_iid_hi * 16384 + o.b_iid_lo

/-- The derived absolute alignment coordinates (`class ESToverlapSpan`). -/
structure ESToverlapSpan where
  a_iid : ℕ
  b_iid : ℕ
  a_beg : ℕ
  a_end : ℕ
  b_beg : ℕ
  b_end : ℕ
  fwd : Bool
  erate : ℕ
deriving DecidableEq, Repr

/-- `ESToverlapSpan::ESToverlapSpan(ESToverlap&, readErrorEstimate*, uint32)`
with the two profile lookups for the read lengths already performed
(`lenA = readProfile[a_iid - iidMin].seqLen`, similarly `lenB`): the
lengths are read into `int32`s, the four coordinates are computed in
integer arithmetic and stored into `uint32` fields. -/
def ESToverlapSpan.make (ovl : ESToverlap) (lenA lenB : ℕ) : ESToverlapSpan :=
  let seqLenA : ℤ := toInt32 lenA
  let seqLenB : ℤ := toInt32 lenB
  { a_iid := ovl.a_iid
  , b_iid := ovl.b_iid
  , a_beg := wrap32 (if ovl.a_hang < 0 then 0 else ovl.a_hang)
  , a_end := wrap32 (if ovl.b_hang < 0 then seqLenA + ovl.b_hang else seqLenA)
  , b_beg := wrap32 (if ovl.a_hang < 0 then -ovl.a_hang else 0)
  , b_end := wrap32 (if ovl.b_hang < 0 then seqLenB else seqLenB - ovl.b_hang)
  , fwd := !ovl.flipped
  , erate := ovl.erate }

/-- Per-read profile (`class readErrorEstimate`): `seqLen`, the running
error sum `errorMeanS[0..seqLen]` (called `errorSum` in the spec) and the
per-base scratch array `errorMeanU[0..seqLen]` (`errorMean` in the spec).
Both arrays are heap-allocated with `seqLen + 1` cells and are NOT
initialized by `readErrorEstimate::initialize` (the initializing code is
`#if 0`-ed out); the lists start with arbitrary contents. -/
structure readErrorEstimate where
  seqLen : ℕ
  errorMeanS : List ℕ
  errorMeanU : List ℕ
deriving DecidableEq, Repr

/-- `computeEstimatedErate(uint32 iidMin, ESToverlapSpan &ovl,
readErrorEstimate *readProfile)`: asserts `a_beg < a_end` and
`b_beg < b_end`; each range difference `errorMeanS[end] -
errorMeanS[begin]` is a subtraction of two `uint32` cells (wrapping
modulo `2^32`) whose result is widened to the `uint64` variables
`estErrorA`/`estErrorB`; the function decodes
`estErrorA / 2 + estErrorB / 2` (two separate integer halvings, then the
sum — both exact in `uint64` since each operand is below `2^32`). -/
def computeEstimatedErate (iidMin : ℕ) (ovl : ESToverlapSpan)
    (readProfile : List readErrorEstimate) : Option ℚ :=
  if ovl.a_beg < ovl.a_end then
    if ovl.b_beg < ovl.b_end then
      match readProfile[sub32 ovl.a_iid iidMin]?, readProfile[sub32 ovl.b_iid iidMin]? with
      | some profA, some profB =>
        match profA.errorMeanS[ovl.a_end]?, profA.errorMeanS[ovl.a_beg]?,
              profB.errorMeanS[ovl.b_end]?, profB.errorMeanS[ovl.b_beg]? with
        | some sae, some sab, some sbe, some sbb =>
            some (AS_OVS_decodeEvalue (sub32 sae sab / 2 + sub32 sbe sbb / 2))
        | _, _, _, _ => none
      | _, _ => none
    else none
  else none

/-- Span construction as the engine performs it: look the two reads'
profiles up by `a_iid - iidMin` / `b_iid - iidMin` (uint32 arithmetic)
and build the `ESToverlapSpan`; `none` models the out-of-bounds access
when a profile index falls outside the allocated window. -/
def spanAt (iidMin : ℕ) (readProfile : List readErrorEstimate)
    (ovl : ESToverlap) : Option ESToverlapSpan :=
  match readProfile[sub32 ovl.a_iid iidMin]?, readProfile[sub32 ovl.b_iid iidMin]? with
  | some profA, some profB => some (ESToverlapSpan.make ovl profA.seqLen profB.seqLen)
  | _, _ => none

/-- The body of the per-overlap loop in `recomputeErrorProfile` (lines
318-351) for one overlap `o` of read `iid`: skip it if already
discarded; otherwise build the span, assert `a_iid == iid + iidMin` and
`a_beg <= a_end`; when `iter > 0` compute the estimate and either mark
the overlap discarded (when `estError + ERATE_TOLERANCE < erate`) or
emit the interval `(a_beg, a_end, erate / 2)` for the aggregation; when
`iter == 0` always emit the interval.  Returns the (possibly updated)
overlap and the emitted interval, or `none` on an assertion failure. -/
def stepOvl (iter iidMin : ℕ) (readProfile : List readErrorEstimate) (iid : ℕ)
    (o : ESToverlap) : Option (ESToverlap × Option (ℕ × ℕ × ℚ)) :=
  if o.discarded then some (o, none)
  else
    match spanAt iidMin readProfile o with
    | none => none
    | some sp =>
      if sp.a_iid = iid + iidMin ∧ sp.a_beg ≤ sp.a_end then
        if 0 < iter then
          match computeEstimatedErate iidMin sp readProfile with
          | none => none
          | some estError =>
            if estError + ERATE_TOLERANCE < AS_OVS_decodeEvalue sp.erate then
              some ({ o with discarded := true }, none)
            else
              some (o, some (sp.a_beg, sp.a_end, AS_OVS_decodeEvalue sp.erate / 2))
        else some (o, some (sp.a_beg, sp.a_end, AS_OVS_decodeEvalue sp.erate / 2))
      else none

/-- The per-overlap loop over a read's whole slice, in stored order:
threads `stepOvl` over the slice, collecting the updated overlaps and
the emitted `(lo, hi, weight)` intervals (the `eRateList`). -/
def processOvls (iter iidMin : ℕ) (readProfile : List readErrorEstimate) (iid : ℕ) :
    List ESToverlap → Option (List ESToverlap × List (ℕ × ℕ × ℚ))
  | [] => some ([], [])
  | o :: rest =>
    match stepOvl iter iidMin readProfile iid o,
          processOvls iter iidMin readProfile iid rest with
    | some r, some (rest', spans) =>
        some (r.1 :: rest',
              match r.2 with
              | some sp => sp :: spans
              | none => spans)
    | _, _ => none

/-- The input intervals covering base `p` (those with `lo ≤ p < hi`). -/
def coveringSpans (spans : List (ℕ × ℕ × ℚ)) (p : ℕ) : List (ℕ × ℕ × ℚ) :=
  spans.filter (fun s => decide (s.1 ≤ p ∧ p < s.2.1))

/-- The aggregation depth at base `p`: number of covering intervals. -/
def coveringDepth (spans : List (ℕ × ℕ × ℚ)) (p : ℕ) : ℕ :=
  (coveringSpans spans p).length

/-- The aggregated weight at base `p`: sum of the covering weights. -/
def coveringWeight (spans : List (ℕ × ℕ × ℚ)) (p : ℕ) : ℚ :=
  ((coveringSpans spans p).map (fun s => s.2.2)).sum

/-- Modelled from the spec: the `intervalList` flattening (the
`intervalList.H` header is not part of `src/`).  Per spec section 4.1 the
flattened point value at a base is `weight / depth` over the covering
inputs when the depth is positive and `0` otherwise, and every output
boundary must satisfy `hi ≤ seqLen` (the `eRateMap.hi(ii) <= seqLen`
assertion); the per-interval write-out of `recomputeErrorProfile` (lines
355-373, after the `memset` of `errorMeanU` to zero) then amounts to this
per-base array of quantized means over `0..seqLen`. -/
def unpackMeans (seqLen : ℕ) (spans : List (ℕ × ℕ × ℚ)) : Option (List ℕ) :=
  if spans.all (fun s => decide (s.2.1 ≤ seqLen)) then
    some ((List.range (seqLen + 1)).map (fun p =>
      if 0 < coveringDepth spans p then
        AS_OVS_encodeEvalue (coveringWeight spans p / (coveringDepth spans p : ℚ))
      else 0))
  else none

/-- The half-open sub-array `l[b..e)` of a flat array. -/
def sliceGet {α : Type} (l : List α) (b e : ℕ) : List α := (l.drop b).take (e - b)

/-- Writing the sub-array starting at offset `b` back into a flat array. -/
def sliceSet {α : Type} (l : List α) (b : ℕ) (sl : List α) : List α :=
  l.take b ++ sl ++ l.drop (b + sl.length)

/-- The engine's mutable memory: the active window's base id `iidMin`,
the read-id → overlap-slice index (`overlapIndex`, length `numIIDs + 1`),
the flat `ESToverlap` array and the per-read profiles. -/
structure EngineState where
  iidMin : ℕ
  overlapIndex : List ℕ
  overlaps : List ESToverlap
  readProfile : List readErrorEstimate
deriving DecidableEq, Repr

/-- One read's work item inside the parallel loop of
`recomputeErrorProfile` (lines 307-379): skip a deleted read
(`seqLen == 0`); otherwise process the read's overlap slice
`overlaps[overlapIndex[iid] .. overlapIndex[iid+1])`, write the updated
slice (discard flags) back, aggregate the emitted intervals and store
the fresh per-base means into this read's `errorMeanU`. -/
def phase1Read (iter : ℕ) (s : EngineState) (iid : ℕ) : Option EngineState :=
  match s.readProfile[iid]? with
  | none => none
  | some p =>
    if p.seqLen = 0 then some s
    else
      match s.overlapIndex[iid]?, s.overlapIndex[iid + 1]? with
      | some b, some e =>
        match processOvls iter s.iidMin s.readProfile iid (sliceGet s.overlaps b e) with
        | none => none
        | some (slice, spans) =>
          match unpackMeans p.seqLen spans with
          | none => none
          | some newU =>
            some { s with overlaps := sliceSet s.overlaps b slice,
                          readProfile := s.readProfile.set iid { p with errorMeanU := newU } }
      | _, _ => none

/-- The loop over reads `iid, iid+1, ..., iid+n-1` (the `omp parallel
for` of lines 306-379; per-read work items are independent, so the
sequential order models every schedule). -/
def phase1From (iter : ℕ) : ℕ → ℕ → EngineState → Option EngineState
  | _, 0, s => some s
  | iid, n + 1, s =>
    match phase1Read iter s iid with
    | none => none
    | some t => phase1From iter (iid + 1) n t

/-- `uint32` running sums: `out[0] = (acc + in[0]) % 2^32`,
`out[i] = (out[i-1] + in[i]) % 2^32`. -/
def sumFrom (acc : ℕ) : List ℕ → List ℕ
  | [] => []
  | u :: rest => ((acc + u) % 4294967296) :: sumFrom ((acc + u) % 4294967296) rest

/-- The per-read body of the second pass (lines 384-392): for an active
read, `errorMeanS[0] = errorMeanU[0]` and
`errorMeanS[ii] = errorMeanS[ii-1] + errorMeanU[ii]` for
`1 ≤ ii < seqLen`; note the loop stops at `seqLen - 1`, so the cell at
index `seqLen` keeps whatever it held before. -/
def rebuildProfile (p : readErrorEstimate) : readErrorEstimate :=
  if p.seqLen = 0 then p
  else { p with errorMeanS := (sumFrom 0 p.errorMeanU).take p.seqLen ++ p.errorMeanS.drop p.seqLen }

/-- One full engine iteration, `recomputeErrorProfile(..., iter)`: the
parallel per-read pass over all `numIIDs` reads followed by the
sequential rebuild of every active read's running sum. -/
def recomputeErrorProfile (iter numIIDs : ℕ) (s : EngineState) : Option EngineState :=
  (phase1From iter 0 numIIDs s).map
    (fun t => { t with readProfile := t.readProfile.map rebuildProfile })

/-- The iteration loop of `main` starting at iteration `iter` for `n`
more iterations. -/
def runIters (numIIDs : ℕ) : ℕ → ℕ → EngineState → Option EngineState
  | _, 0, s => some s
  | iter, n + 1, s =>
    match recomputeErrorProfile iter numIIDs s with
    | none => none
    | some t => runIters numIIDs (iter + 1) n t

/-- The fixed iteration sequence of `main` (lines 732-737):
`for (ii = 0; ii < 4; ii++) recomputeErrorProfile(..., ii)`. -/
def runEngine (numIIDs : ℕ) (s : EngineState) : Option EngineState :=
  runIters numIIDs 0 4 s

/-- A native overlap record as streamed from the original store: the two
identifiers checked by `outputOverlaps` plus the rest of the
full-fidelity record, opaque to the output pass, abstracted as `payload`. -/
structure ovOverlap where
  a_iid : ℕ
  b_iid : ℕ
  payload : ℕ
deriving DecidableEq, Repr

/-- `outputOverlaps` (lines 408-502): walk the original store's records
and the cached flat array in lock-step; assert that the identifiers
agree (`ovl[xx].a_iid == overlaps[no].a_iid`, same for the decoded
`b_iid`); drop the record when `discarded`, otherwise write the original
record unchanged.  Uneven lengths model running the loop past one of the
two sequences. -/
def outputOverlaps : List ovOverlap → List ESToverlap → Option (List ovOverlap)
  | [], [] => some []
  | ovl :: os, c :: cs =>
    if ovl.a_iid = c.a_iid ∧ ovl.b_iid = c.b_iid then
      match outputOverlaps os cs with
      | some res => some (if c.discarded then res else ovl :: res)
      | none => none
    else none
  | _, _ => none

/-- The discard test of iterations `> 0` as a predicate on one overlap:
the span exists, the estimate computes, and
`estError + ERATE_TOLERANCE < AS_OVS_decodeEvalue(erate)`. -/
def discardCond (iidMin : ℕ) (readProfile : List readErrorEstimate)
    (o : ESToverlap) : Prop :=
  ∃ sp estError, spanAt iidMin readProfile o = some sp ∧
    computeEstimatedErate iidMin sp readProfile = some estError ∧
    estError + ERATE_TOLERANCE < AS_OVS_decodeEvalue sp.erate

/-- Adjacent-pairs monotonicity of an index array. -/
def idxMonotone : List ℕ → Bool
  | [] => true
  | [_] => true
  | a :: b :: rest => decide (a ≤ b) && idxMonotone (b :: rest)

/-- Well-formedness of the engine memory as `main` builds it: the
overlap index is monotone (`overlapIndex[iid+1] = overlapIndex[iid] +
overlapLen[iid+1]`) and every index entry stays within the flat overlap
array (`overlapIndex[numIIDs] == numOvls`). -/
def stateWF (s : EngineState) : Prop :=
  idxMonotone s.overlapIndex = true ∧
  ∀ v ∈ s.overlapIndex, v ≤ s.overlaps.length

instance (s : EngineState) : Decidable (stateWF s) :=
  inferInstanceAs (Decidable (idxMonotone s.overlapIndex = true ∧
    ∀ v ∈ s.overlapIndex, v ≤ s.overlaps.length))

/-- The part of a profile list that the discard phase reads: existence,
`seqLen` and the running-sum array of each entry (`errorMeanU` is only
written, never read, during the per-read pass). -/
def profilesView (l : List readErrorEstimate) (k : ℕ) : Option (ℕ × List ℕ) :=
  (l[k]?).map (fun p => (p.seqLen, p.errorMeanS))

/-- Two profile lists agreeing on everything the per-read pass reads. -/
def profsSEq (l₁ l₂ : List readErrorEstimate) : Prop :=
  ∀ k, profilesView l₁ k = profilesView l₂ k

/-- An active read of length 2 right after the per-base pass wrote the
scratch means `[5, 7, 11]`; the three cells of its running-sum array
still hold previous contents `[100, 200, 300]`. -/
def c1Profile : readErrorEstimate :=
  { seqLen := 2, errorMeanS := [100, 200, 300], errorMeanU := [5, 7, 11] }

/-- A minimal span covering one base on each read. -/
def c2Span : ESToverlapSpan :=
  { a_iid := 1, b_iid := 2, a_beg := 0, a_end := 1, b_beg := 0, b_end := 1,
    fwd := true, erate := 100 }

/-- A length-1 read whose stored running sums are `[0, 1]`, so the range
sum over `[0, 1)` is the odd number 1. -/
def c2Prof : readErrorEstimate :=
  { seqLen := 1, errorMeanS := [0, 1], errorMeanU := [0, 0] }

/-- Profile window (`iidMin = 1`) holding two copies of `c2Prof`. -/
def c2Profiles : List readErrorEstimate := [c2Prof, c2Prof]

/-- A degenerate overlap: `a_hang = seqLenA` and `b_hang = 0`, so the
derived span on the A read is the empty interval `[10, 10)`. -/
def exOvlC5 : ESToverlap :=
  { a_iid := 1, b_iid_hi := 0, b_iid_lo := 2, a_hang := 10, b_hang := 0,
    erate := 100, flipped := false, discarded := false }

/-- An active read of length 10 with zeroed arrays. -/
def exProfC5 : readErrorEstimate :=
  { seqLen := 10, errorMeanS := List.replicate 11 0, errorMeanU := List.replicate 11 0 }

/-- Engine memory for two reads (`iidMin = 1`) whose only overlap is the
degenerate `exOvlC5`, owned by read 1. -/
def exStateC5 : EngineState :=
  { iidMin := 1, overlapIndex := [0, 1, 1], overlaps := [exOvlC5],
    readProfile := [exProfC5, exProfC5] }

/-- A well-formed overlap of read 1 over read 2: span `a:[1,3)`,
`b:[0,4)`, stored quantized erate 2000 (≈ 0.488 decoded). -/
def wOvl : ESToverlap :=
  { a_iid := 1, b_iid_hi := 0, b_iid_lo := 2, a_hang := 1, b_hang := -1,
    erate := 2000, flipped := false, discarded := false }

/-- A length-4 read whose running sums are `[0, 1, 2, 3, 4]`. -/
def wProf : readErrorEstimate :=
  { seqLen := 4, errorMeanS := [0, 1, 2, 3, 4], errorMeanU := [0, 0, 0, 0, 0] }

/-- Engine memory with the single overlap `wOvl` already discarded
before any iteration. -/
def dState : EngineState :=
  { iidMin := 1, overlapIndex := [0, 1, 1],
    overlaps := [{ wOvl with discarded := true }],
    readProfile := [wProf, wProf] }

/-- The result of the full four-iteration run `runEngine 2 dState`. -/
def dRes : EngineState :=
  { iidMin := 1, overlapIndex := [0, 1, 1],
    overlaps := [{ wOvl with discarded := true }],
    readProfile :=
      [{ seqLen := 4, errorMeanS := [0, 0, 0, 0, 4], errorMeanU := [0, 0, 0, 0, 0] },
       { seqLen := 4, errorMeanS := [0, 0, 0, 0, 4], errorMeanU := [0, 0, 0, 0, 0] }] }

/-- A surviving and a discarded cached overlap for the output pass. -/
def ex8Ovls : List ESToverlap :=
  [{ a_iid := 1, b_iid_hi := 0, b_iid_lo := 2, a_hang := 1, b_hang := -1,
     erate := 2000, flipped := false, discarded := false },
   { a_iid := 1, b_iid_hi := 0, b_iid_lo := 3, a_hang := 2, b_hang := 1,
     erate := 100, flipped := true, discarded := true }]

/-- The matching original store records, in stream order. -/
def ex8Origs : List ovOverlap :=
  [{ a_iid := 1, b_iid := 2, payload := 7 }, { a_iid := 1, b_iid := 3, payload := 9 }]

/-- The overlap used for the span-coordinate claim: both hangs negative. -/
def c6Ovl : ESToverlap :=
  { a_iid := 1, b_iid_hi := 0, b_iid_lo := 2, a_hang := -3, b_hang := -5,
    erate := 100, flipped := false, discarded := false }

/-! ### List and slice helper lemmas -/

theorem sliceGet_length {α : Type} (l : List α) (b e : ℕ) (hb : b ≤ e)
    (he : e ≤ l.length) : (sliceGet l b e).length = e - b := by
  simp only [sliceGet, List.length_take, List.length_drop]
  omega

theorem sliceGet_getElem {α : Type} (l : List α) (b e j : ℕ) (hj : j < e - b) :
    (sliceGet l b e)[j]? = l[b + j]? := by
  unfold sliceGet
  rw [List.getElem?_take_of_lt hj, List.getElem?_drop]

theorem sliceSet_length {α : Type} (l sl : List α) (b : ℕ)
    (h : b + sl.length ≤ l.length) : (sliceSet l b sl).length = l.length := by
  simp only [sliceSet, List.length_append, List.length_take, List.length_drop]
  omega

theorem sliceSet_getElem_of_lt {α : Type} (l sl : List α) (b oo : ℕ) (h : oo < b)
    (hb : b ≤ l.length) : (sliceSet l b sl)[oo]? = l[oo]? := by
  unfold sliceSet
  rw [List.append_assoc, List.getElem?_append_left (by simp; omega),
    List.getElem?_take_of_lt h]

theorem sliceSet_getElem_of_mid {α : Type} (l sl : List α) (b oo : ℕ) (h₁ : b ≤ oo)
    (h₂ : oo < b + sl.length) (hb : b ≤ l.length) :
    (sliceSet l b sl)[oo]? = sl[oo - b]? := by
  unfold sliceSet
  have hlen : (l.take b).length = b := by simp; omega
  rw [List.append_assoc, List.getElem?_append_right (by omega), hlen,
    List.getElem?_append_left (by omega)]

theorem sliceSet_getElem_of_ge {α : Type} (l sl : List α) (b oo : ℕ)
    (h : b + sl.length ≤ oo) (hb : b ≤ l.length) :
    (sliceSet l b sl)[oo]? = l[oo]? := by
  unfold sliceSet
  have hlen : (l.take b).length = b := by simp; omega
  have hlen₂ : (l.take b ++ sl).length = b + sl.length := by simp; omega
  rw [List.getElem?_append_right (by omega), hlen₂, List.getElem?_drop]
  congr 1
  omega

/-! ### Characterization of the per-overlap step -/

theorem computeEstimatedErate_strict (iidMin : ℕ) (sp : ESToverlapSpan)
    (profs : List readErrorEstimate) (est : ℚ)
    (h : computeEstimatedErate iidMin sp profs = some est) :
    sp.a_beg < sp.a_end ∧ sp.b_beg < sp.b_end := by
  unfold computeEstimatedErate at h
  split_ifs at h with h₁ h₂
  · exact ⟨h₁, h₂⟩

theorem stepOvl_of_discarded (iter iidMin : ℕ) (profs : List readErrorEstimate)
    (iid : ℕ) (o : ESToverlap) (hd : o.discarded = true) :
    stepOvl iter iidMin profs iid o = some (o, none) := by
  unfold stepOvl
  rw [hd]
  simp

theorem stepOvl_cases (iter iidMin : ℕ) (profs : List readErrorEstimate)
    (iid : ℕ) (o : ESToverlap) (r : ESToverlap × Option (ℕ × ℕ × ℚ))
    (h : stepOvl iter iidMin profs iid o = some r) :
    r.1 = o ∨
    (r = ({ o with discarded := true }, none) ∧ o.discarded = false ∧
      0 < iter ∧ o.a_iid = iid + iidMin ∧ discardCond iidMin profs o) := by
  unfold stepOvl at h
  by_cases hd : o.discarded
  · rw [if_pos hd] at h
    left
    cases h
    rfl
  · rw [if_neg hd] at h
    cases hsp : spanAt iidMin profs o with
    | none => rw [hsp] at h; cases h
    | some sp =>
      rw [hsp] at h
      simp only at h
      split_ifs at h with ha hi
      · cases hce : computeEstimatedErate iidMin sp profs with
        | none => rw [hce] at h; cases h
        | some est =>
          rw [hce] at h
          simp only at h
          split_ifs at h with hlt
          · right
            cases h
            have haid : sp.a_iid = o.a_iid := by
              unfold spanAt at hsp
              cases h₁ : profs[sub32 o.a_iid iidMin]? with
              | none => rw [h₁] at hsp; cases hsp
              | some pA =>
                cases h₂ : profs[sub32 o.b_iid iidMin]? with
                | none => rw [h₁, h₂] at hsp; cases hsp
                | some pB =>
                  rw [h₁, h₂] at hsp
                  cases hsp
                  rfl
            refine ⟨rfl, by simpa using hd, hi, by rw [← haid, ha.1], sp, est, hsp, hce, ?_⟩
            have he : sp.erate = o.erate := by
              unfold spanAt at hsp
              cases h₁ : profs[sub32 o.a_iid iidMin]? with
              | none => rw [h₁] at hsp; cases hsp
              | some pA =>
                cases h₂ : profs[sub32 o.b_iid iidMin]? with
                | none => rw [h₁, h₂] at hsp; cases hsp
                | some pB =>
                  rw [h₁, h₂] at hsp
                  cases hsp
                  rfl
            exact hlt
          · left
            cases h
            rfl
      · left
        cases h
        rfl

theorem stepOvl_fields (iter iidMin : ℕ) (profs : List readErrorEstimate)
    (iid : ℕ) (o : ESToverlap) (r : ESToverlap × Option (ℕ × ℕ × ℚ))
    (h : stepOvl iter iidMin profs iid o = some r) :
    r.1.a_iid = o.a_iid ∧ r.1.b_iid_hi = o.b_iid_hi ∧ r.1.b_iid_lo = o.b_iid_lo ∧
    r.1.a_hang = o.a_hang ∧ r.1.b_hang = o.b_hang ∧ r.1.erate = o.erate ∧
    r.1.flipped = o.flipped := by
  rcases stepOvl_cases iter iidMin profs iid o r h with h₁ | h₁
  · rw [h₁]
    exact ⟨rfl, rfl, rfl, rfl, rfl, rfl, rfl⟩
  · rw [h₁.1]
    exact ⟨rfl, rfl, rfl, rfl, rfl, rfl, rfl⟩

theorem stepOvl_discard_iff (iter iidMin : ℕ) (profs : List readErrorEstimate)
    (iid : ℕ) (o : ESToverlap) (r : ESToverlap × Option (ℕ × ℕ × ℚ))
    (h : stepOvl iter iidMin profs iid o = some r) :
    r.1.discarded = true ↔
      (o.discarded = true ∨ (0 < iter ∧ o.discarded = false ∧ discardCond iidMin profs o)) := by
  constructor
  · intro hr
    rcases stepOvl_cases iter iidMin profs iid o r h with h₁ | h₁
    · left
      rw [← h₁]
      exact hr
    · right
      exact ⟨h₁.2.2.1, h₁.2.1, h₁.2.2.2.2⟩
  · intro hor
    rcases hor with hd | ⟨hi, hd, sp, est, hsp, hce, hlt⟩
    · rw [stepOvl_of_discarded iter iidMin profs iid o hd] at h
      cases h
      exact hd
    · unfold stepOvl at h
      rw [hd] at h
      simp only [Bool.false_eq_true, if_false, hsp] at h
      split_ifs at h with ha
      rw [hce] at h
      simp only at h
      rw [if_pos hlt] at h
      cases h
      rfl

theorem stepOvl_emit (iter iidMin : ℕ) (profs : List readErrorEstimate)
    (iid : ℕ) (o : ESToverlap) (r : ESToverlap × Option (ℕ × ℕ × ℚ))
    (h : stepOvl iter iidMin profs iid o = some r) (sp : ℕ × ℕ × ℚ)
    (hsp : r.2 = some sp) :
    r.1 = o ∧ o.discarded = false ∧
    ∃ so, spanAt iidMin profs o = some so ∧
      sp = (so.a_beg, so.a_end, AS_OVS_decodeEvalue so.erate / 2) := by
  unfold stepOvl at h
  by_cases hd : o.discarded
  · rw [if_pos hd] at h
    cases h
    cases hsp
  · rw [if_neg hd] at h
    cases hso : spanAt iidMin profs o with
    | none => rw [hso] at h; cases h
    | some so =>
      rw [hso] at h
      simp only at h
      split_ifs at h with ha hi
      · cases hce : computeEstimatedErate iidMin so profs with
        | none => rw [hce] at h; cases h
        | some est =>
          rw [hce] at h
          simp only at h
          split_ifs at h with hlt
          · cases h
            cases hsp
          · cases h
            cases hsp
            exact ⟨rfl, by simpa using hd, so, rfl, rfl⟩
      · cases h
        cases hsp
        exact ⟨rfl, by simpa using hd, so, rfl, rfl⟩

theorem stepOvl_asserts (iter iidMin : ℕ) (profs : List readErrorEstimate)
    (iid : ℕ) (o : ESToverlap) (r : ESToverlap × Option (ℕ × ℕ × ℚ))
    (h : stepOvl iter iidMin profs iid o = some r) (hd : o.discarded = false) :
    ∃ so, spanAt iidMin profs o = some so ∧ so.a_iid = iid + iidMin ∧
      so.a_beg ≤ so.a_end ∧
      (0 < iter → so.a_beg < so.a_end ∧ so.b_beg < so.b_end) := by
  unfold stepOvl at h
  rw [hd] at h
  simp only [Bool.false_eq_true, if_false] at h
  cases hso : spanAt iidMin profs o with
  | none => rw [hso] at h; cases h
  | some so =>
    rw [hso] at h
    simp only at h
    split_ifs at h with ha hi
    · cases hce : computeEstimatedErate iidMin so profs with
      | none => rw [hce] at h; cases h
      | some est =>
        exact ⟨so, rfl, ha.1, ha.2, fun _ =>
          computeEstimatedErate_strict iidMin so profs est hce⟩
    · exact ⟨so, rfl, ha.1, ha.2, fun hcon => absurd hcon hi⟩

/-! ### Characterization of a whole slice's processing -/

theorem processOvls_length (iter iidMin : ℕ) (profs : List readErrorEstimate)
    (iid : ℕ) (l : List ESToverlap) :
    ∀ (l' : List ESToverlap) (spans : List (ℕ × ℕ × ℚ)),
      processOvls iter iidMin profs iid l = some (l', spans) → l'.length = l.length := by
  induction l with
  | nil =>
    intro l' spans h
    unfold processOvls at h
    cases h
    rfl
  | cons o rest ih =>
    intro l' spans h
    unfold processOvls at h
    cases hs : stepOvl iter iidMin profs iid o with
    | none => rw [hs] at h; cases h
    | some r =>
      cases hp : processOvls iter iidMin profs iid rest with
      | none => rw [hs, hp] at h; cases h
      | some pr =>
        rw [hs, hp] at h
        cases h
        simp only [List.length_cons]
        rw [ih pr.1 pr.2 (by rw [hp])]

theorem processOvls_getElem (iter iidMin : ℕ) (profs : List readErrorEstimate)
    (iid : ℕ) (l : List ESToverlap) :
    ∀ (l' : List ESToverlap) (spans : List (ℕ × ℕ × ℚ)),
      processOvls iter iidMin profs iid l = some (l', spans) →
      ∀ (j : ℕ) (o : ESToverlap), l[j]? = some o →
        ∃ r, stepOvl iter iidMin profs iid o = some r ∧ l'[j]? = some r.1 := by
  induction l with
  | nil =>
    intro l' spans h j o hj
    cases hj
  | cons a rest ih =>
    intro l' spans h j o hj
    unfold processOvls at h
    cases hs : stepOvl iter iidMin profs iid a with
    | none => rw [hs] at h; cases h
    | some r =>
      cases hp : processOvls iter iidMin profs iid rest with
      | none => rw [hs, hp] at h; cases h
      | some pr =>
        rw [hs, hp] at h
        cases h
        cases j with
        | zero =>
          rw [List.getElem?_cons_zero] at hj
          cases hj
          exact ⟨r, hs, List.getElem?_cons_zero⟩
        | succ j' =>
          simp only [List.getElem?_cons_succ] at hj ⊢
          exact ih pr.1 pr.2 (by rw [hp]) j' o hj

theorem processOvls_spans_mem (iter iidMin : ℕ) (profs : List readErrorEstimate)
    (iid : ℕ) (l : List ESToverlap) :
    ∀ (l' : List ESToverlap) (spans : List (ℕ × ℕ × ℚ)),
      processOvls iter iidMin profs iid l = some (l', spans) →
      ∀ sp ∈ spans, ∃ (j : ℕ) (o : ESToverlap), l[j]? = some o ∧ l'[j]? = some o ∧
        o.discarded = false ∧
        ∃ so, spanAt iidMin profs o = some so ∧
          sp = (so.a_beg, so.a_end, AS_OVS_decodeEvalue so.erate / 2) := by
  induction l with
  | nil =>
    intro l' spans h sp hsp
    unfold processOvls at h
    cases h
    cases hsp
  | cons a rest ih =>
    intro l' spans h sp hsp
    unfold processOvls at h
    cases hs : stepOvl iter iidMin profs iid a with
    | none => rw [hs] at h; cases h
    | some r =>
      cases hp : processOvls iter iidMin profs iid rest with
      | none => rw [hs, hp] at h; cases h
      | some pr =>
        rw [hs, hp] at h
        cases h
        have hrest : ∀ sp ∈ pr.2, ∃ (j : ℕ) (o : ESToverlap),
            rest[j]? = some o ∧ pr.1[j]? = some o ∧ o.discarded = false ∧
            ∃ so, spanAt iidMin profs o = some so ∧
              sp = (so.a_beg, so.a_end, AS_OVS_decodeEvalue so.erate / 2) :=
          ih pr.1 pr.2 (by rw [hp])
        have hmem : sp ∈ (match r.2 with
            | some s => s :: pr.2
            | none => pr.2) := hsp
        cases hr2 : r.2 with
        | none =>
          rw [hr2] at hmem
          obtain ⟨j, o, h₁, h₂, h₃, h₄⟩ := hrest sp hmem
          exact ⟨j + 1, o, by simpa using h₁, by simpa using h₂, h₃, h₄⟩
        | some s =>
          rw [hr2] at hmem
          cases List.mem_cons.mp hmem with
          | inl heq =>
            obtain ⟨he₁, he₂, so, hso, hsp'⟩ := stepOvl_emit iter iidMin profs iid a r hs s hr2
            exact ⟨0, a, List.getElem?_cons_zero, by rw [List.getElem?_cons_zero, he₁], he₂,
              so, hso, heq ▸ hsp'⟩
          | inr hmem' =>
            obtain ⟨j, o, h₁, h₂, h₃, h₄⟩ := hrest sp hmem'
            exact ⟨j + 1, o, by simpa using h₁, by simpa using h₂, h₃, h₄⟩

/-! ### The per-read pass reads only `seqLen` and `errorMeanS` -/

theorem profsSEq_refl (l : List readErrorEstimate) : profsSEq l l := fun _ => rfl

theorem profsSEq_trans (l₁ l₂ l₃ : List readErrorEstimate)
    (h₁ : profsSEq l₁ l₂) (h₂ : profsSEq l₂ l₃) : profsSEq l₁ l₃ :=
  fun k => (h₁ k).trans (h₂ k)

theorem profsSEq_cases (l₁ l₂ : List readErrorEstimate) (k : ℕ) (h : profsSEq l₁ l₂) :
    (l₁[k]? = none ∧ l₂[k]? = none) ∨
    ∃ p₁ p₂, l₁[k]? = some p₁ ∧ l₂[k]? = some p₂ ∧
      p₁.seqLen = p₂.seqLen ∧ p₁.errorMeanS = p₂.errorMeanS := by
  have hk := h k
  unfold profilesView at hk
  cases h₁ : l₁[k]? with
  | none =>
    rw [h₁] at hk
    cases h₂ : l₂[k]? with
    | none => exact Or.inl ⟨rfl, rfl⟩
    | some p₂ => rw [h₂] at hk; cases hk
  | some p₁ =>
    rw [h₁] at hk
    cases h₂ : l₂[k]? with
    | none => rw [h₂] at hk; cases hk
    | some p₂ =>
      rw [h₂] at hk
      simp only [Option.map_some', Option.some.injEq, Prod.mk.injEq] at hk
      exact Or.inr ⟨p₁, p₂, rfl, rfl, hk.1, hk.2⟩

theorem profsSEq_set_errorMeanU (l : List readErrorEstimate) (k : ℕ)
    (p : readErrorEstimate) (u : List ℕ) (hk : l[k]? = some p) :
    profsSEq (l.set k { p with errorMeanU := u }) l := by
  intro j
  unfold profilesView
  by_cases hj : k = j
  · subst hj
    rw [List.getElem?_set_self (by exact (List.getElem?_eq_some_iff.mp hk).1), hk]
    rfl
  · rw [List.getElem?_set_ne hj]

theorem computeEstimatedErate_congr (iidMin : ℕ) (sp : ESToverlapSpan)
    (l₁ l₂ : List readErrorEstimate) (h : profsSEq l₁ l₂) :
    computeEstimatedErate iidMin sp l₁ = computeEstimatedErate iidMin sp l₂ := by
  unfold computeEstimatedErate
  rcases profsSEq_cases l₁ l₂ (sub32 sp.a_iid iidMin) h with
    ⟨hA₁, hA₂⟩ | ⟨pA₁, pA₂, hA₁, hA₂, hAs, hAe⟩
  · rw [hA₁, hA₂]
  · rcases profsSEq_cases l₁ l₂ (sub32 sp.b_iid iidMin) h with
      ⟨hB₁, hB₂⟩ | ⟨pB₁, pB₂, hB₁, hB₂, hBs, hBe⟩
    · rw [hA₁, hA₂, hB₁, hB₂]
    · rw [hA₁, hA₂, hB₁, hB₂]
      dsimp only
      rw [hAe, hBe]

theorem spanAt_congr (iidMin : ℕ) (o : ESToverlap)
    (l₁ l₂ : List readErrorEstimate) (h : profsSEq l₁ l₂) :
    spanAt iidMin l₁ o = spanAt iidMin l₂ o := by
  unfold spanAt
  rcases profsSEq_cases l₁ l₂ (sub32 o.a_iid iidMin) h with
    ⟨hA₁, hA₂⟩ | ⟨pA₁, pA₂, hA₁, hA₂, hAs, hAe⟩
  · rw [hA₁, hA₂]
  · rcases profsSEq_cases l₁ l₂ (sub32 o.b_iid iidMin) h with
      ⟨hB₁, hB₂⟩ | ⟨pB₁, pB₂, hB₁, hB₂, hBs, hBe⟩
    · rw [hA₁, hA₂, hB₁, hB₂]
    · rw [hA₁, hA₂, hB₁, hB₂]
      dsimp only
      rw [hAs, hBs]

theorem stepOvl_congr (iter iidMin iid : ℕ) (o : ESToverlap)
    (l₁ l₂ : List readErrorEstimate) (h : profsSEq l₁ l₂) :
    stepOvl iter iidMin l₁ iid o = stepOvl iter iidMin l₂ iid o := by
  unfold stepOvl
  rw [spanAt_congr iidMin o l₁ l₂ h]
  cases spanAt iidMin l₂ o with
  | none => rfl
  | some sp =>
    dsimp only
    rw [computeEstimatedErate_congr iidMin sp l₁ l₂ h]

theorem processOvls_congr (iter iidMin iid : ℕ)
    (l₁ l₂ : List readErrorEstimate) (h : profsSEq l₁ l₂) (l : List ESToverlap) :
    processOvls iter iidMin l₁ iid l = processOvls iter iidMin l₂ iid l := by
  induction l with
  | nil => rfl
  | cons o rest ih =>
    unfold processOvls
    rw [stepOvl_congr iter iidMin iid o l₁ l₂ h, ih]

/-! ### Well-formedness of the overlap index -/

theorem idxMonotone_adjacent : ∀ (l : List ℕ), idxMonotone l = true →
    ∀ (j b e : ℕ), l[j]? = some b → l[j + 1]? = some e → b ≤ e := by
  intro l
  induction l with
  | nil =>
    intro _ j b e hb _
    cases hb
  | cons a rest ih =>
    intro hm j b e hb he
    cases rest with
    | nil =>
      cases j with
      | zero =>
        rw [List.getElem?_cons_succ] at he
        cases he
      | succ j' =>
        rw [List.getElem?_cons_succ] at hb
        cases hb
    | cons a₂ rest₂ =>
      unfold idxMonotone at hm
      rw [Bool.and_eq_true] at hm
      cases j with
      | zero =>
        rw [List.getElem?_cons_zero] at hb
        cases hb
        rw [List.getElem?_cons_succ, List.getElem?_cons_zero] at he
        cases he
        exact of_decide_eq_true hm.1
      | succ j' =>
        rw [List.getElem?_cons_succ] at hb he
        exact ih hm.2 j' b e hb he

theorem idxMonotone_chain (l : List ℕ) (hm : idxMonotone l = true) (j₁ : ℕ) :
    ∀ (j₂ b₁ b₂ : ℕ), j₁ ≤ j₂ → l[j₁]? = some b₁ → l[j₂]? = some b₂ → b₁ ≤ b₂ := by
  intro j₂
  induction j₂ with
  | zero =>
    intro b₁ b₂ hle h₁ h₂
    have hj : j₁ = 0 := by omega
    subst hj
    rw [h₁] at h₂
    cases h₂
    exact le_refl b₁
  | succ m ih =>
    intro b₁ b₂ hle h₁ h₂
    rcases Nat.eq_or_lt_of_le hle with heq | hlt
    · subst heq
      rw [h₁] at h₂
      cases h₂
      exact le_refl b₁
    · have hmlen : m < l.length := by
        have := (List.getElem?_eq_some_iff.mp h₂).1
        omega
      cases hmv : l[m]? with
      | none =>
        rw [List.getElem?_eq_none_iff] at hmv
        omega
      | some v =>
        have hble : b₁ ≤ v := ih b₁ v (by omega) h₁ hmv
        have hlee : v ≤ b₂ := idxMonotone_adjacent l hm m v b₂ hmv h₂
        omega

theorem wf_adjacent (s : EngineState) (hwf : stateWF s) (j b e : ℕ)
    (hb : s.overlapIndex[j]? = some b) (he : s.overlapIndex[j + 1]? = some e) :
    b ≤ e :=
  idxMonotone_adjacent s.overlapIndex hwf.1 j b e hb he

theorem wf_chain (s : EngineState) (hwf : stateWF s) (j₁ j₂ b₁ b₂ : ℕ) (hle : j₁ ≤ j₂)
    (h₁ : s.overlapIndex[j₁]? = some b₁) (h₂ : s.overlapIndex[j₂]? = some b₂) :
    b₁ ≤ b₂ :=
  idxMonotone_chain s.overlapIndex hwf.1 j₁ j₂ b₁ b₂ hle h₁ h₂

theorem wf_bound (s : EngineState) (hwf : stateWF s) (j v : ℕ)
    (h : s.overlapIndex[j]? = some v) : v ≤ s.overlaps.length :=
  hwf.2 v (List.getElem?_mem h)

theorem sliceGet_congr {α : Type} (l₁ l₂ : List α) (b e : ℕ)
    (h : ∀ i, b ≤ i → i < e → l₁[i]? = l₂[i]?) :
    sliceGet l₁ b e = sliceGet l₂ b e := by
  apply List.ext_getElem?
  intro i
  by_cases hi : i < e - b
  · rw [sliceGet_getElem l₁ b e i hi, sliceGet_getElem l₂ b e i hi]
    exact h (b + i) (by omega) (by omega)
  · have h₁ : (sliceGet l₁ b e).length ≤ i := by
      simp only [sliceGet, List.length_take, List.length_drop]
      omega
    have h₂ : (sliceGet l₂ b e).length ≤ i := by
      simp only [sliceGet, List.length_take, List.length_drop]
      omega
    rw [List.getElem?_eq_none h₁, List.getElem?_eq_none h₂]

/-! ### Characterization of one read's work item -/

theorem phase1Read_char (iter : ℕ) (t : EngineState) (iid : ℕ) (t' : EngineState)
    (h : phase1Read iter t iid = some t') :
    (∃ p, t.readProfile[iid]? = some p ∧ p.seqLen = 0 ∧ t' = t) ∨
    (∃ p b e slice spans newU,
      t.readProfile[iid]? = some p ∧ p.seqLen ≠ 0 ∧
      t.overlapIndex[iid]? = some b ∧ t.overlapIndex[iid + 1]? = some e ∧
      processOvls iter t.iidMin t.readProfile iid (sliceGet t.overlaps b e) =
        some (slice, spans) ∧
      unpackMeans p.seqLen spans = some newU ∧
      t' = { t with overlaps := sliceSet t.overlaps b slice,
                    readProfile := t.readProfile.set iid { p with errorMeanU := newU } }) := by
  unfold phase1Read at h
  cases hp : t.readProfile[iid]? with
  | none => rw [hp] at h; cases h
  | some p =>
    rw [hp] at h
    simp only at h
    split_ifs at h with hsl
    · cases h
      exact Or.inl ⟨p, rfl, hsl, rfl⟩
    · cases hb : t.overlapIndex[iid]? with
      | none => rw [hb] at h; cases h
      | some b =>
        cases he : t.overlapIndex[iid + 1]? with
        | none => rw [hb, he] at h; cases h
        | some e =>
          rw [hb, he] at h
          simp only at h
          cases hproc : processOvls iter t.iidMin t.readProfile iid (sliceGet t.overlaps b e) with
          | none => rw [hproc] at h; cases h
          | some pr =>
            rw [hproc] at h
            simp only at h
            cases hunp : unpackMeans p.seqLen pr.2 with
            | none => rw [hunp] at h; cases h
            | some newU =>
              have hpr : processOvls iter t.iidMin t.readProfile iid
                  (sliceGet t.overlaps b e) = some (pr.1, pr.2) := by
                rw [hproc]
              rw [hunp] at h
              cases h
              exact Or.inr ⟨p, b, e, pr.1, pr.2, newU, rfl, hsl, rfl, rfl, hpr, hunp, rfl⟩

/-! ### Characterization of the whole per-read pass -/

theorem phase1From_char (iter : ℕ) : ∀ (n k : ℕ) (s s' : EngineState),
    stateWF s → phase1From iter k n s = some s' →
    s'.iidMin = s.iidMin ∧
    s'.overlapIndex = s.overlapIndex ∧
    s'.overlaps.length = s.overlaps.length ∧
    profsSEq s'.readProfile s.readProfile ∧
    (∀ oo o, s.overlaps[oo]? = some o →
      ((∃ j p b e r, k ≤ j ∧ j < k + n ∧ s.readProfile[j]? = some p ∧ p.seqLen ≠ 0 ∧
          s.overlapIndex[j]? = some b ∧ s.overlapIndex[j + 1]? = some e ∧ b ≤ oo ∧ oo < e ∧
          stepOvl iter s.iidMin s.readProfile j o = some r ∧ s'.overlaps[oo]? = some r.1) ∨
        s'.overlaps[oo]? = some o)) ∧
    (∀ j p b e, k ≤ j → j < k + n → s.readProfile[j]? = some p → p.seqLen ≠ 0 →
      s.overlapIndex[j]? = some b → s.overlapIndex[j + 1]? = some e →
      (∀ oo o, b ≤ oo → oo < e → s.overlaps[oo]? = some o →
        ∃ r, stepOvl iter s.iidMin s.readProfile j o = some r ∧
          s'.overlaps[oo]? = some r.1) ∧
      (∃ slice spans newU,
        processOvls iter s.iidMin s.readProfile j (sliceGet s.overlaps b e) =
          some (slice, spans) ∧
        unpackMeans p.seqLen spans = some newU ∧
        s'.readProfile[j]? = some { p with errorMeanU := newU })) ∧
    (∀ j, j < k ∨ k + n ≤ j → s'.readProfile[j]? = s.readProfile[j]?) := by
  intro n
  induction n with
  | zero =>
    intro k s s' hwf h
    unfold phase1From at h
    cases h
    refine ⟨rfl, rfl, rfl, profsSEq_refl _, ?_, ?_, ?_⟩
    · intro oo o ho
      exact Or.inr ho
    · intro j p b e hj₁ hj₂
      omega
    · intro j _
      rfl
  | succ n ih =>
    intro k s s' hwf h
    unfold phase1From at h
    cases hpr : phase1Read iter s k with
    | none => rw [hpr] at h; cases h
    | some t =>
      rw [hpr] at h
      rcases phase1Read_char iter s k t hpr with ⟨p, hp, hp0, heq⟩ |
        ⟨p, b, e, slice, spans, newU, hp, hp0, hb, he, hproc, hunp, rfl⟩
      · rw [heq] at h
        obtain ⟨c₁, c₂, c₃, c₄, c₅, c₆, c₇⟩ := ih (k + 1) s s' hwf h
        refine ⟨c₁, c₂, c₃, c₄, ?_, ?_, ?_⟩
        · intro oo o ho
          rcases c₅ oo o ho with ⟨j, pj, bj, ej, r, hj₁, hj₂, rest⟩ | hunch
          · exact Or.inl ⟨j, pj, bj, ej, r, by omega, by omega, rest⟩
          · exact Or.inr hunch
        · intro j pj bj ej hj₁ hj₂ hpj hpj0 hbj hej
          rcases Nat.eq_or_lt_of_le hj₁ with heq | hlt
          · subst heq
            rw [hp] at hpj
            cases hpj
            exact absurd hp0 hpj0
          · exact c₆ j pj bj ej (by omega) (by omega) hpj hpj0 hbj hej
        · intro j hj
          exact c₇ j (by omega)
      · have hbe : b ≤ e := wf_adjacent s hwf k b e hb he
        have hel : e ≤ s.overlaps.length := wf_bound s hwf (k + 1) e he
        have hbl : b ≤ s.overlaps.length := le_trans hbe hel
        have hslice : slice.length = e - b := by
          have hl := processOvls_length iter s.iidMin s.readProfile k
            (sliceGet s.overlaps b e) slice spans hproc
          rw [hl, sliceGet_length s.overlaps b e hbe hel]
        have hblen : b + slice.length ≤ s.overlaps.length := by omega
        have hTlen : (sliceSet s.overlaps b slice).length = s.overlaps.length :=
          sliceSet_length s.overlaps slice b hblen
        have hTwf : stateWF { s with
            overlaps := sliceSet s.overlaps b slice,
            readProfile := s.readProfile.set k { p with errorMeanU := newU } } := by
          refine ⟨hwf.1, fun v hv => ?_⟩
          show v ≤ (sliceSet s.overlaps b slice).length
          rw [hTlen]
          exact hwf.2 v hv
        have hseq : profsSEq (s.readProfile.set k { p with errorMeanU := newU })
            s.readProfile := profsSEq_set_errorMeanU s.readProfile k p newU hp
        obtain ⟨c₁, c₂, c₃, c₄, c₅, c₆, c₇⟩ := ih (k + 1) _ s' hTwf h
        have hTov_ge : ∀ oo, e ≤ oo →
            (sliceSet s.overlaps b slice)[oo]? = s.overlaps[oo]? := fun oo hoo =>
          sliceSet_getElem_of_ge s.overlaps slice b oo (by omega) hbl
        have hTov_lt : ∀ oo, oo < b →
            (sliceSet s.overlaps b slice)[oo]? = s.overlaps[oo]? := fun oo hoo =>
          sliceSet_getElem_of_lt s.overlaps slice b oo hoo hbl
        have hTov_mid : ∀ oo, b ≤ oo → oo < e →
            (sliceSet s.overlaps b slice)[oo]? = slice[oo - b]? := fun oo h₁ h₂ =>
          sliceSet_getElem_of_mid s.overlaps slice b oo h₁ (by omega) hbl
        have hstepAt : ∀ oo o, b ≤ oo → oo < e → s.overlaps[oo]? = some o →
            ∃ r, stepOvl iter s.iidMin s.readProfile k o = some r ∧
              slice[oo - b]? = some r.1 := by
          intro oo o h₁ h₂ ho
          have hsg : (sliceGet s.overlaps b e)[oo - b]? = some o := by
            rw [sliceGet_getElem s.overlaps b e (oo - b) (by omega)]
            have hoo : b + (oo - b) = oo := by omega
            rw [hoo]
            exact ho
          exact processOvls_getElem iter s.iidMin s.readProfile k
            (sliceGet s.overlaps b e) slice spans hproc (oo - b) o hsg
        have huntouched : ∀ oo v, oo < e →
            (sliceSet s.overlaps b slice)[oo]? = some v → s'.overlaps[oo]? = some v := by
          intro oo v hoo hT
          rcases c₅ oo v hT with
            ⟨j, pj, bj, ej, r, hj₁, hj₂, hpj, hpj0, hbj, hej, hoj₁, hoj₂, _, _⟩ | hunch
          · have hchain : e ≤ bj := wf_chain s hwf (k + 1) j e bj hj₁ he hbj
            omega
          · exact hunch
        refine ⟨c₁, c₂, c₃.trans hTlen, profsSEq_trans _ _ _ c₄ hseq, ?_, ?_, ?_⟩
        · intro oo o ho
          by_cases hin : b ≤ oo ∧ oo < e
          · obtain ⟨r, hstep, hsl⟩ := hstepAt oo o hin.1 hin.2 ho
            have hT : (sliceSet s.overlaps b slice)[oo]? = some r.1 := by
              rw [hTov_mid oo hin.1 hin.2]
              exact hsl
            exact Or.inl ⟨k, p, b, e, r, le_refl k, by omega, hp, hp0, hb, he,
              hin.1, hin.2, hstep, huntouched oo r.1 hin.2 hT⟩
          · have hT : (sliceSet s.overlaps b slice)[oo]? = some o := by
              rcases Nat.lt_or_ge oo b with hlt | hge
              · rw [hTov_lt oo hlt]
                exact ho
              · rw [hTov_ge oo (by omega)]
                exact ho
            rcases c₅ oo o hT with
              ⟨j, pj, bj, ej, r, hj₁, hj₂, hpj, hpj0, hbj, hej, hoj₁, hoj₂, hstep, hfin⟩ | hunch
            · have hpj' : s.readProfile[j]? = some pj := by
                have hne : (s.readProfile.set k { p with errorMeanU := newU })[j]? =
                    s.readProfile[j]? := List.getElem?_set_ne (show k ≠ j by omega)
                rw [← hne]
                exact hpj
              have hstep' : stepOvl iter s.iidMin s.readProfile j o = some r := by
                rw [← stepOvl_congr iter s.iidMin j o
                  (s.readProfile.set k { p with errorMeanU := newU }) s.readProfile hseq]
                exact hstep
              exact Or.inl ⟨j, pj, bj, ej, r, by omega, by omega, hpj', hpj0, hbj, hej,
                hoj₁, hoj₂, hstep', hfin⟩
            · exact Or.inr hunch
        · intro j pj bj ej hj₁ hj₂ hpj hpj0 hbj hej
          rcases Nat.eq_or_lt_of_le hj₁ with heq | hlt
          · subst heq
            rw [hp] at hpj
            cases hpj
            rw [hb] at hbj
            cases hbj
            rw [he] at hej
            cases hej
            constructor
            · intro oo o h₁ h₂ ho
              obtain ⟨r, hstep, hsl⟩ := hstepAt oo o h₁ h₂ ho
              refine ⟨r, hstep, huntouched oo r.1 h₂ ?_⟩
              rw [hTov_mid oo h₁ h₂]
              exact hsl
            · refine ⟨slice, spans, newU, hproc, hunp, ?_⟩
              have hc₇ := c₇ k (Or.inl (by omega))
              rw [hc₇]
              exact List.getElem?_set_self (List.getElem?_eq_some_iff.mp hp).1
          · have hpjT : (s.readProfile.set k { p with errorMeanU := newU })[j]? = some pj := by
              rw [List.getElem?_set_ne (show k ≠ j by omega)]
              exact hpj
            obtain ⟨ca, cb⟩ := c₆ j pj bj ej (by omega) (by omega) hpjT hpj0 hbj hej
            have hchain : e ≤ bj := wf_chain s hwf (k + 1) j e bj hlt he hbj
            constructor
            · intro oo o h₁ h₂ ho
              have hoT : (sliceSet s.overlaps b slice)[oo]? = some o := by
                rw [hTov_ge oo (by omega)]
                exact ho
              obtain ⟨r, hstep, hfin⟩ := ca oo o h₁ h₂ hoT
              refine ⟨r, ?_, hfin⟩
              rw [← stepOvl_congr iter s.iidMin j o
                (s.readProfile.set k { p with errorMeanU := newU }) s.readProfile hseq]
              exact hstep
            · obtain ⟨slice_j, spans_j, newU_j, hproc_j, hunp_j, hrp_j⟩ := cb
              refine ⟨slice_j, spans_j, newU_j, ?_, hunp_j, hrp_j⟩
              have hsg : sliceGet (sliceSet s.overlaps b slice) bj ej =
                  sliceGet s.overlaps bj ej := by
                apply sliceGet_congr
                intro i hi₁ hi₂
                exact hTov_ge i (by omega)
              rw [← processOvls_congr iter s.iidMin j
                (s.readProfile.set k { p with errorMeanU := newU }) s.readProfile hseq,
                ← hsg]
              exact hproc_j
        · intro j hj
          have hc₇ := c₇ j (by omega)
          rw [hc₇]
          exact List.getElem?_set_ne (show k ≠ j by omega)

/-! ### Lifting to a full iteration -/

theorem rebuildProfile_seqLen (p : readErrorEstimate) :
    (rebuildProfile p).seqLen = p.seqLen := by
  unfold rebuildProfile
  split_ifs <;> rfl

theorem rebuildProfile_errorMeanU (p : readErrorEstimate) :
    (rebuildProfile p).errorMeanU = p.errorMeanU := by
  unfold rebuildProfile
  split_ifs <;> rfl

theorem recompute_char (iter numIIDs : ℕ) (s s' : EngineState)
    (hwf : stateWF s) (hrun : recomputeErrorProfile iter numIIDs s = some s') :
    s'.iidMin = s.iidMin ∧
    s'.overlapIndex = s.overlapIndex ∧
    s'.overlaps.length = s.overlaps.length ∧
    (∀ oo o, s.overlaps[oo]? = some o →
      ((∃ j p b e r, j < numIIDs ∧ s.readProfile[j]? = some p ∧ p.seqLen ≠ 0 ∧
          s.overlapIndex[j]? = some b ∧ s.overlapIndex[j + 1]? = some e ∧ b ≤ oo ∧ oo < e ∧
          stepOvl iter s.iidMin s.readProfile j o = some r ∧
          s'.overlaps[oo]? = some r.1) ∨
        s'.overlaps[oo]? = some o)) ∧
    (∀ j p b e, j < numIIDs → s.readProfile[j]? = some p → p.seqLen ≠ 0 →
      s.overlapIndex[j]? = some b → s.overlapIndex[j + 1]? = some e →
      (∀ oo o, b ≤ oo → oo < e → s.overlaps[oo]? = some o →
        ∃ r, stepOvl iter s.iidMin s.readProfile j o = some r ∧
          s'.overlaps[oo]? = some r.1) ∧
      (∃ slice spans newU,
        processOvls iter s.iidMin s.readProfile j (sliceGet s.overlaps b e) =
          some (slice, spans) ∧
        unpackMeans p.seqLen spans = some newU ∧
        s'.readProfile[j]? = some (rebuildProfile { p with errorMeanU := newU }))) := by
  unfold recomputeErrorProfile at hrun
  cases hph : phase1From iter 0 numIIDs s with
  | none => rw [hph] at hrun; cases hrun
  | some t =>
    rw [hph] at hrun
    simp only [Option.map_some'] at hrun
    cases hrun
    obtain ⟨c₁, c₂, c₃, c₄, c₅, c₆, c₇⟩ := phase1From_char iter numIIDs 0 s t hwf hph
    refine ⟨c₁, c₂, c₃, ?_, ?_⟩
    · intro oo o ho
      rcases c₅ oo o ho with ⟨j, pj, bj, ej, r, hj₁, hj₂, rest⟩ | hunch
      · exact Or.inl ⟨j, pj, bj, ej, r, by omega, rest⟩
      · exact Or.inr hunch
    · intro j pj bj ej hj hpj hpj0 hbj hej
      obtain ⟨ca, cb⟩ := c₆ j pj bj ej (by omega) (by omega) hpj hpj0 hbj hej
      refine ⟨ca, ?_⟩
      obtain ⟨slice, spans, newU, hproc, hunp, hrp⟩ := cb
      refine ⟨slice, spans, newU, hproc, hunp, ?_⟩
      show (t.readProfile.map rebuildProfile)[j]? = _
      rw [List.getElem?_map, hrp]
      rfl

theorem recompute_preserves_wf (iter numIIDs : ℕ) (s s' : EngineState)
    (hwf : stateWF s) (hrun : recomputeErrorProfile iter numIIDs s = some s') :
    stateWF s' := by
  obtain ⟨c₁, c₂, c₃, _, _⟩ := recompute_char iter numIIDs s s' hwf hrun
  constructor
  · rw [c₂]
    exact hwf.1
  · intro v hv
    rw [c₂] at hv
    rw [c₃]
    exact hwf.2 v hv

/-! ### Claim theorems for the iteration engine -/

/-- C3: during iteration `iter` the overlap at position `oo` of an active
read's slice ends the iteration discarded iff it was already discarded or
`iter > 0` and the discard test `estError + ERATE_TOLERANCE <
AS_OVS_decodeEvalue(erate)` fires on the current profiles; consequently
iteration 0 changes no discard flag, and a discarded overlap passes
through every per-overlap step of this or any later iteration unchanged
and with no interval emitted, so it contributes nothing to any read's
interval aggregation from the moment it is discarded. -/
theorem c3_discard_iff (iter numIIDs : ℕ) (s s' : EngineState) (iid oo b e : ℕ)
    (o : ESToverlap) (p : readErrorEstimate)
    (hwf : stateWF s)
    (hrun : recomputeErrorProfile iter numIIDs s = some s')
    (hiid : iid < numIIDs)
    (hp : s.readProfile[iid]? = some p) (hact : p.seqLen ≠ 0)
    (hb : s.overlapIndex[iid]? = some b) (he : s.overlapIndex[iid + 1]? = some e)
    (h₁ : b ≤ oo) (h₂ : oo < e)
    (ho : s.overlaps[oo]? = some o) :
    ∃ o', s'.overlaps[oo]? = some o' ∧
      (o'.discarded = true ↔
        (o.discarded = true ∨
          (0 < iter ∧ o.discarded = false ∧ discardCond s.iidMin s.readProfile o))) ∧
      (iter = 0 → o'.discarded = o.discarded) ∧
      (o.discarded = true → o' = o) ∧
      (∀ iter₂ iidMin₂ profs₂ iid₂, o'.discarded = true →
        stepOvl iter₂ iidMin₂ profs₂ iid₂ o' = some (o', none)) := by
  obtain ⟨_, _, _, _, c₆⟩ := recompute_char iter numIIDs s s' hwf hrun
  obtain ⟨ca, _⟩ := c₆ iid p b e hiid hp hact hb he
  obtain ⟨r, hstep, hfin⟩ := ca oo o h₁ h₂ ho
  refine ⟨r.1, hfin,
    stepOvl_discard_iff iter s.iidMin s.readProfile iid o r hstep, ?_, ?_, ?_⟩
  · intro h0
    subst h0
    rcases stepOvl_cases 0 s.iidMin s.readProfile iid o r hstep with hc | hc
    · rw [hc]
    · exact absurd hc.2.2.1 (by omega)
  · intro hd
    have hsd := stepOvl_of_discarded iter s.iidMin s.readProfile iid o hd
    rw [hsd] at hstep
    cases hstep
    rfl
  · intro iter₂ iidMin₂ profs₂ iid₂ hd
    exact stepOvl_of_discarded iter₂ iidMin₂ profs₂ iid₂ r.1 hd

/-- C10: one engine iteration leaves `iidMin`, the overlap index and
every overlap's identifier, hang, erate and orientation fields unchanged;
the only field that can change is the `discarded` bit, it can only go
from false to true, and then the position lies in the slice of an active
read whose id (`iid + iidMin`) equals the overlap's own `a_iid`. -/
theorem c10_frame_effect (iter numIIDs : ℕ) (s s' : EngineState) (oo : ℕ)
    (o : ESToverlap)
    (hwf : stateWF s)
    (hrun : recomputeErrorProfile iter numIIDs s = some s')
    (ho : s.overlaps[oo]? = some o) :
    s'.iidMin = s.iidMin ∧
    s'.overlapIndex = s.overlapIndex ∧
    ∃ o', s'.overlaps[oo]? = some o' ∧
      o'.a_iid = o.a_iid ∧ o'.b_iid_hi = o.b_iid_hi ∧ o'.b_iid_lo = o.b_iid_lo ∧
      o'.a_hang = o.a_hang ∧ o'.b_hang = o.b_hang ∧ o'.erate = o.erate ∧
      o'.flipped = o.flipped ∧
      (o'.discarded ≠ o.discarded →
        o.discarded = false ∧ o'.discarded = true ∧
        ∃ iid p b e, iid < numIIDs ∧ s.readProfile[iid]? = some p ∧ p.seqLen ≠ 0 ∧
          s.overlapIndex[iid]? = some b ∧ s.overlapIndex[iid + 1]? = some e ∧
          b ≤ oo ∧ oo < e ∧ o.a_iid = iid + s.iidMin) := by
  obtain ⟨c₁, c₂, _, c₅, _⟩ := recompute_char iter numIIDs s s' hwf hrun
  rcases c₅ oo o ho with
    ⟨j, p, b, e, r, hj, hp, hp0, hb, he, h₁, h₂, hstep, hfin⟩ | hunch
  · obtain ⟨f₁, f₂, f₃, f₄, f₅, f₆, f₇⟩ :=
      stepOvl_fields iter s.iidMin s.readProfile j o r hstep
    refine ⟨c₁, c₂, r.1, hfin, f₁, f₂, f₃, f₄, f₅, f₆, f₇, ?_⟩
    intro hne
    rcases stepOvl_cases iter s.iidMin s.readProfile j o r hstep with hc | hc
    · rw [hc] at hne
      exact absurd rfl hne
    · refine ⟨hc.2.1, ?_, j, p, b, e, hj, hp, hp0, hb, he, h₁, h₂, hc.2.2.2.1⟩
      rw [hc.1]
  · refine ⟨c₁, c₂, o, hunch, rfl, rfl, rfl, rfl, rfl, rfl, rfl, ?_⟩
    intro hne
    exact absurd rfl hne

/-- C4: the set of discarded overlaps never shrinks: across any suffix of
the engine's iteration loop (`runIters`, of which the fixed four-pass run
`runEngine` is the instance `runIters numIIDs 0 4`), an overlap whose
`discarded` flag is true keeps a true flag at the same position; no
operation of the engine resets it (and the output pass `outputOverlaps`
only reads the flags, it returns a filtered copy of the original
records and no overlap state at all). -/
theorem c4_monotone_discard (numIIDs : ℕ) : ∀ (n iter : ℕ) (s s' : EngineState),
    stateWF s → runIters numIIDs iter n s = some s' →
    ∀ (oo : ℕ) (o : ESToverlap), s.overlaps[oo]? = some o → o.discarded = true →
      ∃ o', s'.overlaps[oo]? = some o' ∧ o'.discarded = true := by
  intro n
  induction n with
  | zero =>
    intro iter s s' hwf h oo o ho hd
    unfold runIters at h
    cases h
    exact ⟨o, ho, hd⟩
  | succ n ih =>
    intro iter s s' hwf h oo o ho hd
    unfold runIters at h
    cases hr : recomputeErrorProfile iter numIIDs s with
    | none => rw [hr] at h; cases h
    | some t =>
      rw [hr] at h
      obtain ⟨_, _, _, c₅, _⟩ := recompute_char iter numIIDs s t hwf hr
      rcases c₅ oo o ho with
        ⟨j, p, b, e, r, hj, hp, hp0, hb, he, h₁, h₂, hstep, hfin⟩ | hunch
      · rw [stepOvl_of_discarded iter s.iidMin s.readProfile j o hd] at hstep
        cases hstep
        exact ih (iter + 1) t s'
          (recompute_preserves_wf iter numIIDs s t hwf hr) h oo o hfin hd
      · exact ih (iter + 1) t s'
          (recompute_preserves_wf iter numIIDs s t hwf hr) h oo o hunch hd

/-! ### The freshly written per-base means -/

theorem unpackMeans_getElem (seqLen : ℕ) (spans : List (ℕ × ℕ × ℚ)) (newU : List ℕ)
    (h : unpackMeans seqLen spans = some newU) (pos : ℕ) (hpos : pos ≤ seqLen) :
    newU[pos]? = some (if 0 < coveringDepth spans pos then
      AS_OVS_encodeEvalue (coveringWeight spans pos / (coveringDepth spans pos : ℚ))
    else 0) := by
  unfold unpackMeans at h
  split_ifs at h
  cases h
  rw [List.getElem?_map, List.getElem?_range (by omega)]
  rfl

theorem coveringDepth_eq_zero (spans : List (ℕ × ℕ × ℚ)) (p : ℕ)
    (h : ∀ sp ∈ spans, ¬(sp.1 ≤ p ∧ p < sp.2.1)) : coveringDepth spans p = 0 := by
  unfold coveringDepth coveringSpans
  rw [List.length_eq_zero, List.filter_eq_nil_iff]
  intro a ha
  simpa using h a ha

/-- C7: in any iteration, for any active read, the per-base scratch array
written this iteration holds 0 at every base of `0..seqLen` that no
surviving (post-iteration non-discarded) overlap of the read covers with
its span; since this holds for arbitrary prior contents of `errorMeanU`,
no value from a previous iteration can persist at a base the iteration
does not cover. -/
theorem c7_depth_zero_default (iter numIIDs : ℕ) (s s' : EngineState)
    (iid b e pos : ℕ) (p p' : readErrorEstimate)
    (hwf : stateWF s)
    (hrun : recomputeErrorProfile iter numIIDs s = some s')
    (hiid : iid < numIIDs)
    (hp : s.readProfile[iid]? = some p) (hact : p.seqLen ≠ 0)
    (hb : s.overlapIndex[iid]? = some b) (he : s.overlapIndex[iid + 1]? = some e)
    (hp' : s'.readProfile[iid]? = some p')
    (hpos : pos ≤ p.seqLen)
    (hnc : ∀ (oo : ℕ) (o' : ESToverlap) (sp : ESToverlapSpan), b ≤ oo → oo < e →
      s'.overlaps[oo]? = some o' → o'.discarded = false →
      spanAt s.iidMin s.readProfile o' = some sp →
      ¬(sp.a_beg ≤ pos ∧ pos < sp.a_end)) :
    p'.errorMeanU[pos]? = some 0 := by
  obtain ⟨_, _, _, _, c₆⟩ := recompute_char iter numIIDs s s' hwf hrun
  obtain ⟨ca, cb⟩ := c₆ iid p b e hiid hp hact hb he
  obtain ⟨slice, spans, newU, hproc, hunp, hrp⟩ := cb
  rw [hrp] at hp'
  cases hp'
  rw [rebuildProfile_errorMeanU]
  show newU[pos]? = some 0
  have hbe : b ≤ e := wf_adjacent s hwf iid b e hb he
  have hel : e ≤ s.overlaps.length := wf_bound s hwf (iid + 1) e he
  have hdep : coveringDepth spans pos = 0 := by
    apply coveringDepth_eq_zero
    intro sp hsp
    obtain ⟨j, o, hin, hout, hdisc, so, hso, hspeq⟩ :=
      processOvls_spans_mem iter s.iidMin s.readProfile iid
        (sliceGet s.overlaps b e) slice spans hproc sp hsp
    have hjlen : j < e - b := by
      have := (List.getElem?_eq_some_iff.mp hin).1
      rw [sliceGet_length s.overlaps b e hbe hel] at this
      exact this
    have hov : s.overlaps[b + j]? = some o := by
      rw [← sliceGet_getElem s.overlaps b e j hjlen]
      exact hin
    obtain ⟨r, hstep, hfin⟩ := ca (b + j) o (by omega) (by omega) hov
    obtain ⟨r', hstep', hsl'⟩ := processOvls_getElem iter s.iidMin s.readProfile iid
      (sliceGet s.overlaps b e) slice spans hproc j o hin
    have hrr : r = r' := by
      rw [hstep] at hstep'
      cases hstep'
      rfl
    have hr1 : r.1 = o := by
      rw [hrr]
      rw [hout] at hsl'
      cases hsl'
      rfl
    rw [hr1] at hfin
    have := hnc (b + j) o so (by omega) (by omega) hfin hdisc hso
    rw [hspeq]
    simpa using this
  rw [unpackMeans_getElem p.seqLen spans newU hunp pos hpos, hdep]
  rfl

/-- C5 (amended): what the engine actually asserts about spans.  For
every overlap of a processed slice that enters an iteration not yet
discarded, a successful iteration guarantees only `a_beg ≤ a_end`
(non-strict) together with the ownership assert `a_iid = iid + iidMin`;
the strict bounds `a_beg < a_end` and `b_beg < b_end` are asserted only
when `iter > 0`, inside the estimate computation.  (`a_end ≤ seqLen` is
enforced for the flattened intervals by `unpackMeans`; `b_end ≤ seqLenB`
is never checked anywhere.) -/
theorem c5_span_asserts (iter iidMin iid : ℕ) (profs : List readErrorEstimate)
    (l l' : List ESToverlap) (spans : List (ℕ × ℕ × ℚ))
    (h : processOvls iter iidMin profs iid l = some (l', spans))
    (o : ESToverlap) (ho : o ∈ l) (hnd : o.discarded = false) :
    ∃ so, spanAt iidMin profs o = some so ∧ so.a_iid = iid + iidMin ∧
      so.a_beg ≤ so.a_end ∧
      (0 < iter → so.a_beg < so.a_end ∧ so.b_beg < so.b_end) := by
  obtain ⟨j, hj⟩ := List.mem_iff_getElem?.mp ho
  obtain ⟨r, hstep, _⟩ := processOvls_getElem iter iidMin profs iid l l' spans h j o hj
  exact stepOvl_asserts iter iidMin profs iid o r hstep hnd

/-! ### The estimate formula -/

/-- C2 (amended): when the prefix-array cells at the four span ends
satisfy `sab ≤ sae` and `sbb ≤ sbe` with each difference below `2^32`
(the case of actual `uint32` cells, where the wrapping subtraction is the
plain difference), the estimate equals the decode of the sum of the two
separately floor-halved range sums,
`decode(⌊(sae - sab) / 2⌋ + ⌊(sbe - sbb) / 2⌋)` — each side's range sum
is halved in integer arithmetic before the two halves are added. -/
theorem c2_estimate_halved_sums (iidMin : ℕ) (sp : ESToverlapSpan)
    (readProfile : List readErrorEstimate) (profA profB : readErrorEstimate)
    (sae sab sbe sbb : ℕ)
    (hA : readProfile[sub32 sp.a_iid iidMin]? = some profA)
    (hB : readProfile[sub32 sp.b_iid iidMin]? = some profB)
    (h₁ : sp.a_beg < sp.a_end) (h₂ : sp.b_beg < sp.b_end)
    (hae : profA.errorMeanS[sp.a_end]? = some sae)
    (hab : profA.errorMeanS[sp.a_beg]? = some sab)
    (hbe : profB.errorMeanS[sp.b_end]? = some sbe)
    (hbb : profB.errorMeanS[sp.b_beg]? = some sbb)
    (hm₁ : sab ≤ sae) (hm₂ : sbb ≤ sbe)
    (h32a : sae - sab < 4294967296)
    (h32b : sbe - sbb < 4294967296) :
    computeEstimatedErate iidMin sp readProfile =
      some (AS_OVS_decodeEvalue ((sae - sab) / 2 + (sbe - sbb) / 2)) := by
  unfold computeEstimatedErate
  rw [if_pos h₁, if_pos h₂, hA, hB]
  dsimp only
  rw [hae, hab, hbe, hbb]
  dsimp only
  have e₁ : sub32 sae sab = sae - sab := by
    unfold sub32 wrap32
    omega
  have e₂ : sub32 sbe sbb = sbe - sbb := by
    unfold sub32 wrap32
    omega
  rw [e₁, e₂]

/-! ### Remaining claim theorems -/

/-- C1 evidence: the rebuild pass applied to an active read of length 2
whose scratch means are `[5, 7, 11]` leaves the running-sum array
`[5, 12, 300]` (and `[5, 12, 400]` when the stale cell held 400): the
cell at index 0 holds `errorMean[0] = 5`, not 0, and the cell at index
`seqLen = 2` is never written — it keeps whatever the uninitialized
allocation held, although `computeEstimatedErate` reads index `seqLen`
for every span reaching the read's end. -/
theorem c1_rebuild_evaluation :
    (rebuildProfile c1Profile).errorMeanS = [5, 12, 300] ∧
    (rebuildProfile { c1Profile with errorMeanS := [100, 200, 400] }).errorMeanS =
      [5, 12, 400] := by
  decide

/-- C2 counterexample: with both range sums equal to the odd number 1,
the code computes `decode(1/2 + 1/2) = decode(0) = 0`, while the claim's
`decode(((S_a[ae]-S_a[ab]) + (S_b[be]-S_b[bb])) / 2) = decode(1) =
1/4095`; the two differ. -/
theorem c2_counterexample :
    computeEstimatedErate 1 c2Span c2Profiles = some 0 ∧
    AS_OVS_decodeEvalue (((1 - 0) + (1 - 0)) / 2) = 1 / 4095 ∧
    (0 : ℚ) ≠ 1 / 4095 := by
  refine ⟨?_, by norm_num [AS_OVS_decodeEvalue], by norm_num⟩
  unfold computeEstimatedErate c2Span c2Profiles c2Prof
  norm_num [sub32, wrap32, AS_OVS_decodeEvalue]

/-- Witness for the amended C2 at the concrete profiles. -/
theorem c2_estimate_halved_sums_witness :
    computeEstimatedErate 1 c2Span c2Profiles =
      some (AS_OVS_decodeEvalue ((1 - 0) / 2 + (1 - 0) / 2)) :=
  c2_estimate_halved_sums 1 c2Span c2Profiles c2Prof c2Prof 1 0 1 0 (by decide)
    (by decide) (by decide) (by decide) (by decide) (by decide) (by decide) (by decide)
    (by decide) (by decide) (by decide) (by decide)

/-- C5 counterexample: the degenerate span `[10, 10)` of `exOvlC5`
(violating the claimed strict `a_beg < a_end`) is accepted silently by a
full iteration 0 — the engine completes without any assertion abort and
the overlap is not discarded, so a violation of the claimed strict bounds
is neither fatal nor a discard. -/
theorem c5_counterexample :
    (recomputeErrorProfile 0 2 exStateC5).isSome = true ∧
    exStateC5.overlaps[0]? = some exOvlC5 ∧
    exOvlC5.discarded = false ∧
    spanAt exStateC5.iidMin exStateC5.readProfile exOvlC5 =
      some (ESToverlapSpan.make exOvlC5 10 10) ∧
    ¬((ESToverlapSpan.make exOvlC5 10 10).a_beg <
      (ESToverlapSpan.make exOvlC5 10 10).a_end) := by
  refine ⟨by decide, by decide, by decide, by decide, by decide⟩

/-- Witness for the amended C5 at a concrete iteration-0 slice. -/
theorem c5_span_asserts_witness :
    ∃ so, spanAt 1 exStateC5.readProfile exOvlC5 = some so ∧ so.a_iid = 0 + 1 ∧
      so.a_beg ≤ so.a_end ∧
      (0 < 0 → so.a_beg < so.a_end ∧ so.b_beg < so.b_end) := by
  obtain ⟨l', spans, hps⟩ : ∃ l' spans,
      processOvls 0 1 exStateC5.readProfile 0 [exOvlC5] = some (l', spans) :=
    ⟨_, _, rfl⟩
  exact c5_span_asserts 0 1 0 exStateC5.readProfile [exOvlC5] l' spans hps exOvlC5
    (by decide) (by decide)

/-- C6: for hangs within the signed 17-bit field range, read lengths
representable in `int32`, and the two subtractions staying non-negative,
the four derived span coordinates equal the spec's formulas exactly. -/
theorem c6_span_coordinates (ovl : ESToverlap) (lenA lenB : ℕ)
    (hA : (lenA : ℤ) < 2147483648) (hB : (lenB : ℤ) < 2147483648)
    (hah₁ : -65536 ≤ ovl.a_hang) (hah₂ : ovl.a_hang < 65536)
    (hbh₁ : -65536 ≤ ovl.b_hang) (hbh₂ : ovl.b_hang < 65536)
    (hae : ovl.b_hang < 0 → 0 ≤ (lenA : ℤ) + ovl.b_hang)
    (hbe : 0 ≤ ovl.b_hang → ovl.b_hang ≤ (lenB : ℤ)) :
    ((ESToverlapSpan.make ovl lenA lenB).a_beg : ℤ) =
      (if ovl.a_hang < 0 then 0 else ovl.a_hang) ∧
    ((ESToverlapSpan.make ovl lenA lenB).a_end : ℤ) =
      (if ovl.b_hang < 0 then (lenA : ℤ) + ovl.b_hang else (lenA : ℤ)) ∧
    ((ESToverlapSpan.make ovl lenA lenB).b_beg : ℤ) =
      (if ovl.a_hang < 0 then -ovl.a_hang else 0) ∧
    ((ESToverlapSpan.make ovl lenA lenB).b_end : ℤ) =
      (if ovl.b_hang < 0 then (lenB : ℤ) else (lenB : ℤ) - ovl.b_hang) := by
  unfold ESToverlapSpan.make wrap32 toInt32
  dsimp only
  refine ⟨?_, ?_, ?_, ?_⟩ <;> split_ifs <;> omega

/-- Witness for C6 at a concrete overlap with both hangs negative. -/
theorem c6_span_coordinates_witness :
    ((ESToverlapSpan.make c6Ovl 10 12).a_beg : ℤ) =
      (if c6Ovl.a_hang < 0 then 0 else c6Ovl.a_hang) ∧
    ((ESToverlapSpan.make c6Ovl 10 12).a_end : ℤ) =
      (if c6Ovl.b_hang < 0 then (10 : ℤ) + c6Ovl.b_hang else (10 : ℤ)) ∧
    ((ESToverlapSpan.make c6Ovl 10 12).b_beg : ℤ) =
      (if c6Ovl.a_hang < 0 then -c6Ovl.a_hang else 0) ∧
    ((ESToverlapSpan.make c6Ovl 10 12).b_end : ℤ) =
      (if c6Ovl.b_hang < 0 then (12 : ℤ) else (12 : ℤ) - c6Ovl.b_hang) :=
  c6_span_coordinates c6Ovl 10 12 (by decide) (by decide) (by decide) (by decide)
    (by decide) (by decide) (by decide) (by decide)

/-- C8: a successful output pass implies the two streams had equal length
with lock-step identifier agreement at every position (a mismatch would
have aborted), and the written result is exactly the original records at
the non-discarded positions, in stream order and unmodified. -/
theorem c8_output_lockstep (origs : List ovOverlap) (ovls : List ESToverlap)
    (res : List ovOverlap) (h : outputOverlaps origs ovls = some res) :
    origs.length = ovls.length ∧
    (∀ (i : ℕ) (ovl : ovOverlap) (c : ESToverlap), origs[i]? = some ovl →
      ovls[i]? = some c → ovl.a_iid = c.a_iid ∧ ovl.b_iid = c.b_iid) ∧
    res = ((origs.zip ovls).filter (fun pc => !pc.2.discarded)).map Prod.fst := by
  induction origs generalizing ovls res with
  | nil =>
    cases ovls with
    | nil =>
      unfold outputOverlaps at h
      cases h
      refine ⟨rfl, ?_, rfl⟩
      intro i ovl c h₁ h₂
      cases h₁
    | cons c cs =>
      unfold outputOverlaps at h
      cases h
  | cons o os ih =>
    cases ovls with
    | nil =>
      unfold outputOverlaps at h
      cases h
    | cons c cs =>
      unfold outputOverlaps at h
      split_ifs at h with hid hdisc
      · cases hrec : outputOverlaps os cs with
        | none => rw [hrec] at h; cases h
        | some res' =>
          rw [hrec] at h
          simp only [Option.some.injEq] at h
          obtain ⟨ih₁, ih₂, ih₃⟩ := ih cs res' hrec
          subst h
          refine ⟨by simp [ih₁], ?_, ?_⟩
          · intro i ovl cc h₁ h₂
            cases i with
            | zero =>
              rw [List.getElem?_cons_zero] at h₁ h₂
              cases h₁
              cases h₂
              exact hid
            | succ i' =>
              rw [List.getElem?_cons_succ] at h₁ h₂
              exact ih₂ i' ovl cc h₁ h₂
          · simp only [List.zip_cons_cons, List.filter_cons, hdisc]
            simpa using ih₃
      · cases hrec : outputOverlaps os cs with
        | none => rw [hrec] at h; cases h
        | some res' =>
          rw [hrec] at h
          simp only [Option.some.injEq] at h
          obtain ⟨ih₁, ih₂, ih₃⟩ := ih cs res' hrec
          subst h
          have hd : c.discarded = false := by simpa using hdisc
          refine ⟨by simp [ih₁], ?_, ?_⟩
          · intro i ovl cc h₁ h₂
            cases i with
            | zero =>
              rw [List.getElem?_cons_zero] at h₁ h₂
              cases h₁
              cases h₂
              exact hid
            | succ i' =>
              rw [List.getElem?_cons_succ] at h₁ h₂
              exact ih₂ i' ovl cc h₁ h₂
          · simp only [List.zip_cons_cons, List.filter_cons, hd]
            simp [ih₃]

/-- Witness for C8: the filtered copy keeps exactly the surviving record. -/
theorem c8_output_lockstep_witness :
    [({ a_iid := 1, b_iid := 2, payload := 7 } : ovOverlap)] =
      ((ex8Origs.zip ex8Ovls).filter (fun pc => !pc.2.discarded)).map Prod.fst :=
  (c8_output_lockstep ex8Origs ex8Ovls
    [{ a_iid := 1, b_iid := 2, payload := 7 }] (by decide)).2.2

/-- C9: packing a native overlap whose identifiers fit in 23 bits, whose
hangs fit in the signed 17-bit fields and whose quantized evalue fits in
the 12-bit field reproduces every field exactly on unpacking (`b_iid`
through its 9-bit high / 14-bit low split), and the freshly packed
record has `discarded = false`. -/
theorem c9_populate_roundtrip (a_iid b_iid : ℕ) (a_hang b_hang : ℤ) (evalue : ℕ)
    (flipped : Bool)
    (ha : a_iid < 8388608) (hb : b_iid < 8388608)
    (hah₁ : -65536 ≤ a_hang) (hah₂ : a_hang < 65536)
    (hbh₁ : -65536 ≤ b_hang) (hbh₂ : b_hang < 65536)
    (hev : evalue < 4096) :
    (ESToverlap.populate a_iid b_iid a_hang b_hang evalue flipped).a_iid = a_iid ∧
    (ESToverlap.populate a_iid b_iid a_hang b_hang evalue flipped).b_iid = b_iid ∧
    (ESToverlap.populate a_iid b_iid a_hang b_hang evalue flipped).a_hang = a_hang ∧
    (ESToverlap.populate a_iid b_iid a_hang b_hang evalue flipped).b_hang = b_hang ∧
    (ESToverlap.populate a_iid b_iid a_hang b_hang evalue flipped).erate = evalue ∧
    (ESToverlap.populate a_iid b_iid a_hang b_hang evalue flipped).flipped = flipped ∧
    (ESToverlap.populate a_iid b_iid a_hang b_hang evalue flipped).discarded = false := by
  unfold ESToverlap.populate ESToverlap.b_iid wrap17
  dsimp only
  exact ⟨by omega, by omega, by omega, by omega, by omega, rfl, rfl⟩

/-- Witness for C9 at concrete in-range values. -/
theorem c9_populate_roundtrip_witness :
    (ESToverlap.populate 5 20000 (-3) 7 100 true).a_iid = 5 ∧
    (ESToverlap.populate 5 20000 (-3) 7 100 true).b_iid = 20000 ∧
    (ESToverlap.populate 5 20000 (-3) 7 100 true).a_hang = -3 ∧
    (ESToverlap.populate 5 20000 (-3) 7 100 true).b_hang = 7 ∧
    (ESToverlap.populate 5 20000 (-3) 7 100 true).erate = 100 ∧
    (ESToverlap.populate 5 20000 (-3) 7 100 true).flipped = true ∧
    (ESToverlap.populate 5 20000 (-3) 7 100 true).discarded = false :=
  c9_populate_roundtrip 5 20000 (-3) 7 100 true (by decide) (by decide) (by decide)
    (by decide) (by decide) (by decide) (by decide)

/-- Witness for C3: a concrete iteration-0 run (the engine state is a
fixed point: nothing is covered, nothing discarded). -/
theorem c3_discard_iff_witness :
    ∃ o', exStateC5.overlaps[0]? = some o' ∧
      (o'.discarded = true ↔
        (exOvlC5.discarded = true ∨
          (0 < 0 ∧ exOvlC5.discarded = false ∧
            discardCond exStateC5.iidMin exStateC5.readProfile exOvlC5))) ∧
      ((0 : ℕ) = 0 → o'.discarded = exOvlC5.discarded) ∧
      (exOvlC5.discarded = true → o' = exOvlC5) ∧
      (∀ iter₂ iidMin₂ profs₂ iid₂, o'.discarded = true →
        stepOvl iter₂ iidMin₂ profs₂ iid₂ o' = some (o', none)) :=
  c3_discard_iff 0 2 exStateC5 exStateC5 0 0 0 1 exOvlC5 exProfC5 (by decide)
    (by decide) (by decide) (by decide) (by decide) (by decide) (by decide)
    (by decide) (by decide) (by decide)

/-- Witness for C4 at the four-iteration run over `dState`. -/
theorem c4_monotone_discard_witness :
    ∃ o', dRes.overlaps[0]? = some o' ∧ o'.discarded = true :=
  c4_monotone_discard 2 4 0 dState dRes (by decide) (by decide) 0
    { wOvl with discarded := true } (by decide) (by decide)

/-- Witness for C7: base 5 of the active read 1 is covered by no span, so
its freshly written mean is 0. -/
theorem c7_depth_zero_default_witness : exProfC5.errorMeanU[5]? = some 0 :=
  c7_depth_zero_default 0 2 exStateC5 exStateC5 0 0 1 5 exProfC5 exProfC5 (by decide)
    (by decide) (by decide) (by decide) (by decide) (by decide) (by decide) (by decide)
    (by decide)
    (by
      intro oo o' sp h₁ h₂ h₃ h₄ h₅
      have hoo : oo = 0 := by omega
      subst hoo
      have e₁ : exStateC5.overlaps[0]? = some exOvlC5 := by decide
      rw [e₁] at h₃
      cases h₃
      have e₂ : spanAt exStateC5.iidMin exStateC5.readProfile exOvlC5 =
          some (ESToverlapSpan.make exOvlC5 10 10) := by decide
      rw [e₂] at h₅
      cases h₅
      decide)

/-- Witness for C10 at a concrete iteration-0 run. -/
theorem c10_frame_effect_witness :
    exStateC5.iidMin = exStateC5.iidMin ∧
    exStateC5.overlapIndex = exStateC5.overlapIndex ∧
    ∃ o', exStateC5.overlaps[0]? = some o' ∧
      o'.a_iid = exOvlC5.a_iid ∧ o'.b_iid_hi = exOvlC5.b_iid_hi ∧
      o'.b_iid_lo = exOvlC5.b_iid_lo ∧ o'.a_hang = exOvlC5.a_hang ∧
      o'.b_hang = exOvlC5.b_hang ∧ o'.erate = exOvlC5.erate ∧
      o'.flipped = exOvlC5.flipped ∧
      (o'.discarded ≠ exOvlC5.discarded →
        exOvlC5.discarded = false ∧ o'.discarded = true ∧
        ∃ iid p b e, iid < 2 ∧ exStateC5.readProfile[iid]? = some p ∧ p.seqLen ≠ 0 ∧
          exStateC5.overlapIndex[iid]? = some b ∧
          exStateC5.overlapIndex[iid + 1]? = some e ∧
          b ≤ 0 ∧ 0 < e ∧ exOvlC5.a_iid = iid + exStateC5.iidMin) :=
  c10_frame_effect 0 2 exStateC5 exStateC5 0 exOvlC5 (by decide) (by decide) (by decide)
